import Mathlib

/-!
# A shallow embedding of the `tacd` broker core (`src/broker/topic.rs`)

The broker core is a typed in-process publish/subscribe engine.  A `Topic<E>`
holds a retained value (`Mutex<Option<RetainedValue<E>>>`), a registry of
native subscribers (`Mutex<Vec<(Unique, Sender<Arc<E>>)>>`) and a registry of
serialized subscribers (`Mutex<Vec<(Unique, Sender<(TopicName, Arc<[u8]>)>)>>`).

This file models each operation of the Rust source as a pure function on an
explicit topic state.  The async-std channel is modelled as a value
(`Queue`): a capacity (`none` = unbounded), a buffer, and a closed flag,
with `trySend` reproducing `Sender::try_send` (closed / full / ok) and
`recvQ` reproducing the receiver end (`Receiver::next`: a buffered message,
or `none` once the queue is closed and drained, or waiting otherwise).

The serde_json encoding of the payload type `E` is abstracted as a codec:
an encoding function `enc : E → List Nat` (bytes as naturals) and a partial
decoding function `dec : List Nat → Option E`.  `enc` is total because the
source requires `E : Serialize`; `dec` returns `none` exactly when
`serde_json::from_slice` fails.

Ghost state: the topic state additionally carries an `evicted` log (the
queues dropped by the backpressure rule, after the `close()` call the source
performs on a full queue) and an `events` log (one entry per fan-out, i.e.
per executed `set_arc_with_retain_lock`).  Neither ghost field influences
any operation's behaviour on the non-ghost fields; they only make the
eviction and fan-out behaviour of a run observable in theorem statements.
-/

namespace Tacd

/-- Result of `async_std::channel::Sender::try_send`. -/
inductive TrySendResult where
  | ok : TrySendResult
  | full : TrySendResult
  | closedErr : TrySendResult
deriving DecidableEq, Repr

/-- A value model of one async-std channel: capacity (`none` for an
unbounded channel), the buffered messages, and whether the channel has been
closed. -/
structure Queue (α : Type _) where
  cap : Option Nat
  buf : List α
  closed : Bool
deriving DecidableEq, Repr

/-- An empty unbounded channel, as created by `async_std::channel::unbounded()`. -/
def Queue.unboundedNew (α : Type _) : Queue α := ⟨none, [], false⟩

/-- An empty bounded channel of capacity `c`, as created by
`async_std::channel::bounded(c)`. -/
def Queue.boundedNew (α : Type _) (c : Nat) : Queue α := ⟨some c, [], false⟩

/-- `Sender::try_send`: fails with `Closed` on a closed channel, with `Full`
on a bounded channel whose buffer is at capacity, and otherwise appends the
message to the buffer. -/
def Queue.trySend (q : Queue α) (a : α) : TrySendResult × Queue α :=
  if q.closed then (.closedErr, q)
  else
    match q.cap with
    | some c => if c ≤ q.buf.length then (.full, q) else (.ok, ⟨q.cap, q.buf ++ [a], q.closed⟩)
    | none => (.ok, ⟨q.cap, q.buf ++ [a], q.closed⟩)

/-- `Sender::close`: marks the channel closed; buffered messages stay
drainable by the receiver. -/
def Queue.close (q : Queue α) : Queue α := ⟨q.cap, q.buf, true⟩

/-- Outcome of the receiver end's `next().await`: a message, or the stream
end (`none` in Rust, the branch `Topic::get` unwraps away), or a suspension
because nothing is buffered yet on a still-open channel. -/
inductive RecvOutcome (α : Type _) where
  | value : α → Queue α → RecvOutcome α
  | streamEnd : RecvOutcome α
  | wouldBlock : RecvOutcome α

/-- `Receiver::next`: pops the oldest buffered message; on an empty buffer it
yields the stream end if the channel is closed and suspends otherwise. -/
def Queue.recvQ (q : Queue α) : RecvOutcome α :=
  match q.buf with
  | a :: rest => .value a ⟨q.cap, rest, q.closed⟩
  | [] => if q.closed then .streamEnd else .wouldBlock

/-- `RetainedValue<E>`: the current payload plus the lazily cached
serialization (`serialized: Option<Arc<[u8]>>`). -/
structure RetainedValue (E : Type _) where
  native : E
  serializedCache : Option (List Nat)
deriving DecidableEq, Repr

/-- `RetainedValue::new`: a fresh retained value with an empty cache. -/
def RetainedValue.new (v : E) : RetainedValue E := ⟨v, none⟩

/-- The byte codec for the payload type: `enc` models `serde_json::to_vec`
(total, by the `E: Serialize` bound of the source) and `dec` models
`serde_json::from_slice` (`none` when the bytes do not parse). -/
structure Codec (E : Type _) where
  enc : E → List Nat
  dec : List Nat → Option E

/-- The full state of one `Topic<E>`.  `path`, `webReadable` and
`webWritable` are the construction-time fields; `retained`, `senders` and
`sendersSerialized` mirror the three mutex-protected fields; `nextToken`
mints the `Unique` subscription tokens; `evicted` and `events` are ghost
logs (see the module docstring). -/
structure TopicState (E : Type _) where
  path : String
  webReadable : Bool
  webWritable : Bool
  retained : Option (RetainedValue E)
  senders : List (Nat × Queue E)
  sendersSerialized : List (Nat × Queue (String × List Nat))
  nextToken : Nat
  evicted : List (Nat × Queue E)
  events : List E
deriving DecidableEq

/-- A topic as the registry/builder constructs it: the given path and
visibility flags, an optional initial retained value (with an empty
serialization cache), and no subscribers. -/
def TopicState.mk0 (path : String) (webReadable webWritable : Bool) (initial : Option E) :
    TopicState E :=
  ⟨path, webReadable, webWritable, initial.map RetainedValue.new, [], [], 0, [], []⟩

/-- The `senders.retain(...)` loop of `set_arc_with_retain_lock`: one
`try_send` per registered queue; `Ok` keeps the (updated) entry, `Full`
closes the queue and drops the entry, `Closed` drops the entry.  Returns the
kept entries and, as ghost output, the dropped entries with their final
queue state. -/
def fanout (v : α) : List (Nat × Queue α) → List (Nat × Queue α) × List (Nat × Queue α)
  | [] => ([], [])
  | (t, q) :: rest =>
    let f := fanout v rest
    match q.trySend v with
    | (.ok, q') => ((t, q') :: f.1, f.2)
    | (.full, q') => (f.1, (t, q'.close) :: f.2)
    | (.closedErr, q') => (f.1, (t, q') :: f.2)

/-- `Topic::set_arc_with_retain_lock`: fan the new value out to the native
registry, fan `(path, serialized bytes)` out to the serialized registry
(the bytes are computed at most once, on the first serialized entry, and
cached in the new retained value), then replace the retained value.  The
whole operation happens under the retained lock, so it is a single atomic
step of the model. -/
def setArcWithRetainLock (c : Codec E) (v : E) (s : TopicState E) : TopicState E :=
  let f := fanout v s.senders
  let bytes := c.enc v
  let fser := fanout (s.path, bytes) s.sendersSerialized
  let cache : Option (List Nat) := if s.sendersSerialized.isEmpty then none else some bytes
  { s with
    retained := some ⟨v, cache⟩
    senders := f.1
    sendersSerialized := fser.1
    evicted := s.evicted ++ f.2
    events := s.events ++ [v] }

/-- `Topic::set` / `Topic::set_arc`: take the retained lock and run
`set_arc_with_retain_lock`. -/
def setOp (c : Codec E) (v : E) (s : TopicState E) : TopicState E :=
  setArcWithRetainLock c v s

/-- `Topic::modify`: call the closure with the current value (`none` if the
topic was never set); publish the returned value if there is one, otherwise
leave the state untouched. -/
def modifyOp (c : Codec E) (f : Option E → Option E) (s : TopicState E) : TopicState E :=
  match f (s.retained.map RetainedValue.native) with
  | some v => setArcWithRetainLock c v s
  | none => s

/-- `Topic::subscribe`: mint a fresh token, append `(token, sender)` to the
native registry, and hand the token back (the `SubscriptionHandle`). -/
def subscribeOp (q : Queue E) (s : TopicState E) : Nat × TopicState E :=
  (s.nextToken,
   { s with senders := s.senders ++ [(s.nextToken, q)], nextToken := s.nextToken + 1 })

/-- `Topic::subscribe_unbounded`: create an unbounded channel and subscribe
its sender. -/
def subscribeUnboundedOp (s : TopicState E) : Nat × TopicState E :=
  subscribeOp (Queue.unboundedNew E) s

/-- `AnyTopic::subscribe_as_bytes`: mint a fresh token and append the
sender to the serialized registry. -/
def subscribeAsBytesOp (q : Queue (String × List Nat)) (s : TopicState E) : Nat × TopicState E :=
  (s.nextToken,
   { s with sendersSerialized := s.sendersSerialized ++ [(s.nextToken, q)],
            nextToken := s.nextToken + 1 })

/-- `Vec::swap_remove`: replace the element at `i` by the last element and
pop the last slot.  (For `i` in bounds this is exactly the Rust behaviour;
on an empty list it is the identity, a case the source never reaches.) -/
def swapRemove (l : List α) (i : Nat) : List α :=
  match l.getLast? with
  | none => l
  | some a => (l.set i a).dropLast

/-- The registry-removal step both `unsubscribe` implementations share:
`position(token == t)` followed by `swap_remove`; no match leaves the
registry as it was. -/
def removeTok (t : Nat) (l : List (Nat × β)) : List (Nat × β) :=
  match l.findIdx? (fun p => p.1 = t) with
  | some i => swapRemove l i
  | none => l

/-- `SubscriptionHandle::<Native>::unsubscribe` when the topic is still
alive: find the entry with the handle's token and `swap_remove` it; absence
is a no-op. -/
def unsubscribeOp (t : Nat) (s : TopicState E) : TopicState E :=
  { s with senders := removeTok t s.senders }

/-- `SubscriptionHandle::<Serialized>::unsubscribe` when the topic is still
alive. -/
def unsubscribeSerOp (t : Nat) (s : TopicState E) : TopicState E :=
  { s with sendersSerialized := removeTok t s.sendersSerialized }

/-- The error the type-erased write path can signal: `serde_json::Result`
carries exactly the decode failure. -/
inductive TopicError where
  | decodeError : TopicError
deriving DecidableEq, Repr

/-- `AnyTopic::set_from_bytes`: decode, and on success perform a normal
`set`; on failure return the decode error before touching any state. -/
def setFromBytesOp (c : Codec E) (b : List Nat) (s : TopicState E) :
    Except TopicError Unit × TopicState E :=
  match c.dec b with
  | some v => (.ok (), setOp c v s)
  | none => (.error .decodeError, s)

/-- `AnyTopic::try_get_as_bytes`: `none` when nothing was ever published,
otherwise the cached serialization, computing and caching it on first use
(`RetainedValue::serialized`). -/
def tryGetAsBytesOp (c : Codec E) (s : TopicState E) : Option (List Nat) × TopicState E :=
  match s.retained with
  | none => (none, s)
  | some rv =>
    match rv.serializedCache with
    | some b => (some b, s)
    | none =>
      let b := c.enc rv.native
      (some b, { s with retained := some ⟨rv.native, some b⟩ })

/-- The first phase of `Topic::get`, executed under the retained lock:
return the retained value if there is one, otherwise register a fresh
unbounded subscription (still under the lock) and hand back its token so
the caller can wait on it. -/
def getImmediateOrSubscribe (s : TopicState E) : E ⊕ (Nat × TopicState E) :=
  match s.retained with
  | some rv => Sum.inl rv.native
  | none => Sum.inr (subscribeUnboundedOp s)

/-- The waiting phase of `Topic::get`: receive on the queue registered under
token `t`.  `RecvOutcome.streamEnd` is the case the source's
`rx.next().await.unwrap()` would turn into a panic. -/
def recvOn (t : Nat) (s : TopicState E) : Option (RecvOutcome E) :=
  (s.senders.find? (fun p => p.1 = t)).map (fun p => p.2.recvQ)

/-- `AnyTopic::path`. -/
def pathOp (s : TopicState E) : String := s.path

/-- `AnyTopic::web_readable`. -/
def webReadableOp (s : TopicState E) : Bool := s.webReadable

/-- `AnyTopic::web_writable`. -/
def webWritableOp (s : TopicState E) : Bool := s.webWritable

/-- One completed call against the topic, for reasoning about sequences of
operations.  Each constructor corresponds to one public operation of the
source; operations whose return value matters to a claim are also available
as the standalone functions above. -/
inductive Op (E : Type _) where
  | set : E → Op E
  | modify : (Option E → Option E) → Op E
  | subscribe : Queue E → Op E
  | subscribeAsBytes : Queue (String × List Nat) → Op E
  | unsubscribe : Nat → Op E
  | unsubscribeSer : Nat → Op E
  | setFromBytes : List Nat → Op E
  | tryGetAsBytes : Op E

/-- Apply one operation to the topic state (discarding return values). -/
def applyOp (c : Codec E) (s : TopicState E) : Op E → TopicState E
  | .set v => setOp c v s
  | .modify f => modifyOp c f s
  | .subscribe q => (subscribeOp q s).2
  | .subscribeAsBytes q => (subscribeAsBytesOp q s).2
  | .unsubscribe t => unsubscribeOp t s
  | .unsubscribeSer t => unsubscribeSerOp t s
  | .setFromBytes b => (setFromBytesOp c b s).2
  | .tryGetAsBytes => (tryGetAsBytesOp c s).2

/-- Run a sequence of completed operations. -/
def runOps (c : Codec E) (s : TopicState E) : List (Op E) → TopicState E
  | [] => s
  | op :: rest => runOps c (applyOp c s op) rest

/-- The value a single operation publishes, given the current retained
payload `r` (`none` if the topic was never set):  `set v` publishes `v`,
`modify f` publishes what `f r` yields, `setFromBytes b` publishes the
decoded value when `b` parses, and everything else publishes nothing. -/
def publishes (c : Codec E) (r : Option E) : Op E → Option E
  | .set v => some v
  | .modify f => f r
  | .setFromBytes b => c.dec b
  | _ => none

/-- The retained payload after a sequence of operations, tracked at the
specification level: each publish overwrites it, every other operation
leaves it alone. -/
def retainedModel (c : Codec E) (r : Option E) : List (Op E) → Option E
  | [] => r
  | op :: rest =>
    retainedModel c (match publishes c r op with | some v => some v | none => r) rest

/-- All values published by a sequence of operations, in order, starting
from retained payload `r`. -/
def publishedList (c : Codec E) (r : Option E) : List (Op E) → List E
  | [] => []
  | op :: rest =>
    match publishes c r op with
    | some v => v :: publishedList c (some v) rest
    | none => publishedList c r rest

/-- Registry well-formedness: the tokens in both registries are pairwise
distinct and below the mint counter.  This holds in every reachable state
because `Unique::new` never repeats a token. -/
def TokensOK (s : TopicState E) : Prop :=
  (s.senders.map Prod.fst).Nodup ∧
  (∀ p ∈ s.senders, p.1 < s.nextToken) ∧
  (s.sendersSerialized.map Prod.fst).Nodup ∧
  (∀ p ∈ s.sendersSerialized, p.1 < s.nextToken)

/-- Cache freshness: whenever the serialization cache of the retained value
is populated, it holds exactly the encoding of the current payload. -/
def CacheOK (c : Codec E) (s : TopicState E) : Prop :=
  ∀ rv, s.retained = some rv → ∀ b, rv.serializedCache = some b → b = c.enc rv.native

/-- A state is reachable when some sequence of completed operations leads to
it from a freshly constructed topic. -/
def Reachable (c : Codec E) (s : TopicState E) : Prop :=
  ∃ path wr ww initial ops, s = runOps c (TopicState.mk0 path wr ww initial) ops

/-- A concrete codec for `Bool` payloads, with the JSON byte encodings the
reference system produces (`"true"` / `"false"` as ASCII) and a decoder
that accepts exactly those two byte strings.  Used to evaluate the generic
theorems on concrete inputs. -/
def boolCodec : Codec Bool where
  enc := fun b => if b then [116, 114, 117, 101] else [102, 97, 108, 115, 101]
  dec := fun l =>
    if l = [116, 114, 117, 101] then some true
    else if l = [102, 97, 108, 115, 101] then some false
    else none

/-- A concrete freshly built `Bool` topic used by the concrete instances of
the theorems: path `"v1/test"`, web-readable and web-writable, no initial
value. -/
def demoTopic : TopicState Bool := TopicState.mk0 "v1/test" true true none

/-- `demoTopic` with one native subscriber holding an open unbounded
queue. -/
def demoTopicSub : TopicState Bool :=
  { demoTopic with senders := [(0, Queue.unboundedNew Bool)], nextToken := 1 }

/-- `demoTopic` with one serialized subscriber holding an open unbounded
queue. -/
def demoTopicSerSub : TopicState Bool :=
  { demoTopic with
      sendersSerialized := [(0, Queue.unboundedNew (String × List Nat))], nextToken := 1 }

/-- `demoTopic` with three native subscribers: an open unbounded queue, a
bounded queue already at capacity, and a closed queue. -/
def demoTopicThree : TopicState Bool :=
  { demoTopic with
      senders := [(0, ⟨none, [], false⟩), (1, ⟨some 1, [true], false⟩), (2, ⟨none, [], true⟩)],
      nextToken := 3 }

/-- A freshly built `Bool` topic that is neither web-readable nor
web-writable. -/
def demoTopicNoWeb : TopicState Bool := TopicState.mk0 "v1/hidden" false false none

/-! ## Lemmas about channels and fan-out -/

/-- `try_send` on an open unbounded channel always succeeds and appends the
message. -/
theorem Queue.trySend_unbounded (q : Queue α) (a : α) (hc : q.cap = none)
    (ho : q.closed = false) : q.trySend a = (.ok, ⟨none, q.buf ++ [a], false⟩) := by
  simp [Queue.trySend, hc, ho]

/-- `try_send` on an open bounded channel with spare room succeeds. -/
theorem Queue.trySend_bounded_room (q : Queue α) (a : α) {cp : Nat} (hc : q.cap = some cp)
    (ho : q.closed = false) (hroom : q.buf.length < cp) :
    q.trySend a = (.ok, ⟨some cp, q.buf ++ [a], false⟩) := by
  simp [Queue.trySend, hc, ho, Nat.not_le.mpr hroom]

/-- `try_send` on an open bounded channel at capacity fails with `Full`. -/
theorem Queue.trySend_bounded_full (q : Queue α) (a : α) {cp : Nat} (hc : q.cap = some cp)
    (ho : q.closed = false) (hfull : cp ≤ q.buf.length) :
    q.trySend a = (.full, q) := by
  simp [Queue.trySend, hc, ho, hfull]

/-- In a registry with pairwise-distinct tokens, a token determines its
queue. -/
theorem mem_assoc_unique :
    ∀ {l : List (Nat × β)}, (l.map Prod.fst).Nodup →
      ∀ {t : Nat} {a b : β}, (t, a) ∈ l → (t, b) ∈ l → a = b := by
  intro l
  induction l with
  | nil => intro _ t a b ha; cases ha
  | cons hd tl ih =>
    intro hnd t a b ha hb
    obtain ⟨t₀, q₀⟩ := hd
    rw [List.map_cons, List.nodup_cons] at hnd
    rcases List.mem_cons.mp ha with ha1 | ha1 <;> rcases List.mem_cons.mp hb with hb1 | hb1
    · have h := ha1.trans hb1.symm
      injection h with h1 h2
    · exfalso
      apply hnd.1
      have h := ha1
      rw [Prod.mk.injEq] at h
      rw [← h.1]
      exact List.mem_map.mpr ⟨(t, b), hb1, rfl⟩
    · exfalso
      apply hnd.1
      have h := hb1
      rw [Prod.mk.injEq] at h
      rw [← h.1]
      exact List.mem_map.mpr ⟨(t, a), ha1, rfl⟩
    · exact ih hnd.2 ha1 hb1

/-- Unfolding `fanout` over a head entry whose `try_send` succeeds. -/
theorem fanout_cons_ok {q q' : Queue α} {v : α} (t : Nat) (l : List (Nat × Queue α))
    (h : q.trySend v = (.ok, q')) :
    fanout v ((t, q) :: l) = ((t, q') :: (fanout v l).1, (fanout v l).2) := by
  simp [fanout, h]

/-- Unfolding `fanout` over a head entry whose `try_send` reports `Full`. -/
theorem fanout_cons_full {q q' : Queue α} {v : α} (t : Nat) (l : List (Nat × Queue α))
    (h : q.trySend v = (.full, q')) :
    fanout v ((t, q) :: l) = ((fanout v l).1, (t, q'.close) :: (fanout v l).2) := by
  simp [fanout, h]

/-- Unfolding `fanout` over a head entry whose `try_send` reports `Closed`. -/
theorem fanout_cons_closed {q q' : Queue α} {v : α} (t : Nat) (l : List (Nat × Queue α))
    (h : q.trySend v = (.closedErr, q')) :
    fanout v ((t, q) :: l) = ((fanout v l).1, (t, q') :: (fanout v l).2) := by
  simp [fanout, h]

/-- The tokens surviving a fan-out form a sublist of the original tokens. -/
theorem fanout_kept_fst_sublist (v : α) :
    ∀ l : List (Nat × Queue α), ((fanout v l).1.map Prod.fst).Sublist (l.map Prod.fst) := by
  intro l
  induction l with
  | nil => simp [fanout]
  | cons hd tl ih =>
    obtain ⟨t, q⟩ := hd
    rcases h : q.trySend v with ⟨res, q'⟩
    cases res
    · rw [fanout_cons_ok t tl h]
      simpa using ih.cons₂ t
    · rw [fanout_cons_full t tl h]
      simpa using ih.cons t
    · rw [fanout_cons_closed t tl h]
      simpa using ih.cons t

/-- If an entry's `try_send` succeeds, the entry survives the fan-out with
its updated queue. -/
theorem fanout_mem_ok {l : List (Nat × Queue α)} {t : Nat} {q q' : Queue α} {v : α}
    (hm : (t, q) ∈ l) (hs : q.trySend v = (.ok, q')) : (t, q') ∈ (fanout v l).1 := by
  induction l with
  | nil => cases hm
  | cons hd tl ih =>
    obtain ⟨t₀, q₀⟩ := hd
    rcases List.mem_cons.mp hm with h1 | h1
    · rw [Prod.mk.injEq] at h1
      rw [← h1.1, ← h1.2] at *
      rw [fanout_cons_ok t tl hs]
      exact List.mem_cons_self _ _
    · rcases h : q₀.trySend v with ⟨res, q₀'⟩
      cases res
      · rw [fanout_cons_ok t₀ tl h]
        exact List.mem_cons_of_mem _ (ih h1)
      · rw [fanout_cons_full t₀ tl h]
        exact ih h1
      · rw [fanout_cons_closed t₀ tl h]
        exact ih h1

/-- If an entry's `try_send` does not succeed, its token is gone from the
surviving registry (assuming distinct tokens). -/
theorem fanout_not_mem_kept {v : α} :
    ∀ {l : List (Nat × Queue α)}, (l.map Prod.fst).Nodup →
      ∀ {t : Nat} {q : Queue α}, (t, q) ∈ l → (q.trySend v).1 ≠ .ok →
        t ∉ (fanout v l).1.map Prod.fst := by
  intro l
  induction l with
  | nil => intro _ t q hm; cases hm
  | cons hd tl ih =>
    intro hnd t q hm hres
    obtain ⟨t₀, q₀⟩ := hd
    rw [List.map_cons, List.nodup_cons] at hnd
    rcases List.mem_cons.mp hm with h1 | h1
    · rw [Prod.mk.injEq] at h1
      obtain ⟨rfl, rfl⟩ := h1
      rcases h : q.trySend v with ⟨res, q'⟩
      rw [h] at hres
      cases res
      · exact absurd rfl hres
      · rw [fanout_cons_full t tl h]
        exact fun hmem => hnd.1 ((fanout_kept_fst_sublist v tl).subset hmem)
      · rw [fanout_cons_closed t tl h]
        exact fun hmem => hnd.1 ((fanout_kept_fst_sublist v tl).subset hmem)
    · have htmem : t ∈ tl.map Prod.fst := List.mem_map.mpr ⟨(t, q), h1, rfl⟩
      have hne : t ≠ t₀ := fun he => hnd.1 (he ▸ htmem)
      rcases h : q₀.trySend v with ⟨res, q₀'⟩
      cases res
      · rw [fanout_cons_ok t₀ tl h]
        intro hmem
        rw [List.map_cons, List.mem_cons] at hmem
        rcases hmem with h2 | h2
        · exact hne h2
        · exact ih hnd.2 h1 hres h2
      · rw [fanout_cons_full t₀ tl h]
        exact ih hnd.2 h1 hres
      · rw [fanout_cons_closed t₀ tl h]
        exact ih hnd.2 h1 hres

/-- An entry whose `try_send` reports `Full` lands in the eviction output
with its queue closed. -/
theorem fanout_mem_ev_full {l : List (Nat × Queue α)} {t : Nat} {q q' : Queue α} {v : α}
    (hm : (t, q) ∈ l) (hs : q.trySend v = (.full, q')) : (t, q'.close) ∈ (fanout v l).2 := by
  induction l with
  | nil => cases hm
  | cons hd tl ih =>
    obtain ⟨t₀, q₀⟩ := hd
    rcases List.mem_cons.mp hm with h1 | h1
    · rw [Prod.mk.injEq] at h1
      obtain ⟨rfl, rfl⟩ := h1
      rw [fanout_cons_full t tl hs]
      exact List.mem_cons_self _ _
    · rcases h : q₀.trySend v with ⟨res, q₀'⟩
      cases res
      · rw [fanout_cons_ok t₀ tl h]
        exact ih h1
      · rw [fanout_cons_full t₀ tl h]
        exact List.mem_cons_of_mem _ (ih h1)
      · rw [fanout_cons_closed t₀ tl h]
        exact List.mem_cons_of_mem _ (ih h1)

/-- An entry whose `try_send` reports `Closed` lands in the eviction output
unchanged. -/
theorem fanout_mem_ev_closed {l : List (Nat × Queue α)} {t : Nat} {q q' : Queue α} {v : α}
    (hm : (t, q) ∈ l) (hs : q.trySend v = (.closedErr, q')) : (t, q') ∈ (fanout v l).2 := by
  induction l with
  | nil => cases hm
  | cons hd tl ih =>
    obtain ⟨t₀, q₀⟩ := hd
    rcases List.mem_cons.mp hm with h1 | h1
    · rw [Prod.mk.injEq] at h1
      obtain ⟨rfl, rfl⟩ := h1
      rw [fanout_cons_closed t tl hs]
      exact List.mem_cons_self _ _
    · rcases h : q₀.trySend v with ⟨res, q₀'⟩
      cases res
      · rw [fanout_cons_ok t₀ tl h]
        exact ih h1
      · rw [fanout_cons_full t₀ tl h]
        exact List.mem_cons_of_mem _ (ih h1)
      · rw [fanout_cons_closed t₀ tl h]
        exact List.mem_cons_of_mem _ (ih h1)

/-- Entries kept by a fan-out come from the input registry: same token, and
the queue is the successful `try_send` update of the original queue. -/
theorem fanout_mem_kept_src {v : α} :
    ∀ {l : List (Nat × Queue α)} {t : Nat} {q' : Queue α}, (t, q') ∈ (fanout v l).1 →
      ∃ q, (t, q) ∈ l ∧ q.trySend v = (.ok, q') := by
  intro l
  induction l with
  | nil => intro t q' h; simp [fanout] at h
  | cons hd tl ih =>
    intro t q' hmem
    obtain ⟨t₀, q₀⟩ := hd
    rcases h : q₀.trySend v with ⟨res, q₀'⟩
    cases res
    · rw [fanout_cons_ok t₀ tl h] at hmem
      rcases List.mem_cons.mp hmem with h1 | h1
      · rw [Prod.mk.injEq] at h1
        obtain ⟨rfl, rfl⟩ := h1
        exact ⟨q₀, List.mem_cons_self _ _, h⟩
      · obtain ⟨q, hq, hq'⟩ := ih h1
        exact ⟨q, List.mem_cons_of_mem _ hq, hq'⟩
    · rw [fanout_cons_full t₀ tl h] at hmem
      obtain ⟨q, hq, hq'⟩ := ih hmem
      exact ⟨q, List.mem_cons_of_mem _ hq, hq'⟩
    · rw [fanout_cons_closed t₀ tl h] at hmem
      obtain ⟨q, hq, hq'⟩ := ih hmem
      exact ⟨q, List.mem_cons_of_mem _ hq, hq'⟩

/-! ## Lemmas about `swap_remove`-based unsubscription -/

/-- `swap_remove` at a successor index on a list with at least two elements
leaves the head in place. -/
theorem swapRemove_cons (a x : α) (xs : List α) (i : Nat) :
    swapRemove (a :: x :: xs) (i + 1) = a :: swapRemove (x :: xs) i := by
  rcases h : (x :: xs).getLast? with _ | b
  · simp at h
  · have h2 : (a :: x :: xs).getLast? = some b := by rw [List.getLast?_cons_cons, h]
    cases i with
    | zero =>
      simp only [swapRemove, h, h2, List.set_cons_succ, List.set_cons_zero,
        List.dropLast_cons₂]
    | succ j =>
      simp only [swapRemove, h, h2, List.set_cons_succ, List.dropLast_cons₂]

/-- The result of the token-removal step is a permutation of erasing the
(first) entry bearing the token. -/
theorem removeTok_perm (t : Nat) :
    ∀ l : List (Nat × β), (removeTok t l).Perm (l.eraseP (fun p => p.1 = t)) := by
  intro l
  induction l with
  | nil => simp [removeTok]
  | cons hd tl ih =>
    obtain ⟨t₀, q₀⟩ := hd
    by_cases ht : t₀ = t
    · subst ht
      have hf : ((t₀, q₀) :: tl).findIdx? (fun p => p.1 = t₀) = some 0 := by
        rw [List.findIdx?_cons]
        simp
      simp only [removeTok, hf]
      rw [List.eraseP_cons_of_pos (by simp)]
      rcases List.eq_nil_or_concat tl with rfl | ⟨l', a, rfl⟩
      · simp [swapRemove]
      · rw [List.concat_eq_append]
        have hlast : ((t₀, q₀) :: (l' ++ [a])).getLast? = some a := by
          rw [← List.cons_append, List.getLast?_concat]
        simp only [swapRemove, hlast, List.set_cons_zero]
        rw [← List.cons_append, List.dropLast_concat]
        exact (List.perm_append_singleton a l').symm
    · have hp : (decide ((t₀, q₀).1 = t)) = false := by
        simp [ht]
      have hcons : ((t₀, q₀) :: tl).findIdx? (fun p => p.1 = t) =
          (tl.findIdx? (fun p => p.1 = t)).map (fun i => i + 1) := by
        rw [List.findIdx?_cons, hp]
        simp [List.findIdx?_succ]
      rcases hft : tl.findIdx? (fun p => p.1 = t) with _ | i
      · have hnone : ∀ x ∈ tl, ¬ (decide (x.1 = t) = true) := by
          intro x hx
          have := List.findIdx?_eq_none_iff.mp hft x hx
          simp [this]
        have hrm : removeTok t ((t₀, q₀) :: tl) = (t₀, q₀) :: tl := by
          simp only [removeTok, hcons, hft, Option.map_none']
        rw [hrm, List.eraseP_cons_of_neg (by simp [ht]), List.eraseP_of_forall_not hnone]
      · have htl : tl ≠ [] := by
          intro he
          rw [he] at hft
          simp at hft
        obtain ⟨x, xs, rfl⟩ : ∃ x xs, tl = x :: xs := by
          cases tl with
          | nil => exact absurd rfl htl
          | cons x xs => exact ⟨x, xs, rfl⟩
        have hrm : removeTok t ((t₀, q₀) :: x :: xs) = (t₀, q₀) :: swapRemove (x :: xs) i := by
          simp only [removeTok, hcons, hft, Option.map_some']
          exact swapRemove_cons _ _ _ _
        rw [hrm, List.eraseP_cons_of_neg (by simp [ht])]
        simp only [removeTok, hft] at ih
        exact ih.cons _

/-- Removal by an absent token leaves the registry untouched. -/
theorem removeTok_eq_of_not_mem {t : Nat} {l : List (Nat × β)} (h : t ∉ l.map Prod.fst) :
    removeTok t l = l := by
  have hf : l.findIdx? (fun p => p.1 = t) = none := by
    rw [List.findIdx?_eq_none_iff]
    intro x hx
    have : x.1 ≠ t := fun he => h (he ▸ List.mem_map.mpr ⟨x, hx, rfl⟩)
    simp [this]
  rw [removeTok, hf]

/-- Entries bearing a different token survive the removal step. -/
theorem removeTok_mem_of_ne {t t' : Nat} {q : β} {l : List (Nat × β)} (hne : t' ≠ t)
    (hm : (t', q) ∈ l) : (t', q) ∈ removeTok t l := by
  rw [(removeTok_perm t l).mem_iff]
  rw [List.mem_eraseP_of_neg (by simp [hne])]
  exact hm

/-- The removal step only ever discards entries: what survives was there
before. -/
theorem removeTok_subset {t : Nat} {l : List (Nat × β)} {p : Nat × β}
    (hm : p ∈ removeTok t l) : p ∈ l := by
  rw [(removeTok_perm t l).mem_iff] at hm
  exact (List.eraseP_sublist l).subset hm

/-- The removal step preserves distinctness of the registry tokens. -/
theorem removeTok_fst_nodup {t : Nat} {l : List (Nat × β)} (h : (l.map Prod.fst).Nodup) :
    ((removeTok t l).map Prod.fst).Nodup := by
  have hperm := (removeTok_perm t l).map Prod.fst
  rw [hperm.nodup_iff]
  exact ((List.eraseP_sublist l).map Prod.fst).nodup h

/-! ## Field-level descriptions of each operation -/

/-- What one publish does to the whole topic state, field by field. -/
theorem setArc_fields (c : Codec E) (v : E) (s : TopicState E) :
    (setArcWithRetainLock c v s).path = s.path ∧
    (setArcWithRetainLock c v s).webReadable = s.webReadable ∧
    (setArcWithRetainLock c v s).webWritable = s.webWritable ∧
    (setArcWithRetainLock c v s).retained =
      some ⟨v, if s.sendersSerialized.isEmpty then none else some (c.enc v)⟩ ∧
    (setArcWithRetainLock c v s).senders = (fanout v s.senders).1 ∧
    (setArcWithRetainLock c v s).sendersSerialized =
      (fanout (s.path, c.enc v) s.sendersSerialized).1 ∧
    (setArcWithRetainLock c v s).nextToken = s.nextToken ∧
    (setArcWithRetainLock c v s).evicted = s.evicted ++ (fanout v s.senders).2 ∧
    (setArcWithRetainLock c v s).events = s.events ++ [v] :=
  ⟨rfl, rfl, rfl, rfl, rfl, rfl, rfl, rfl, rfl⟩

/-- No operation ever changes the construction-time fields: the path and
the two web-visibility flags. -/
theorem applyOp_config (c : Codec E) (s : TopicState E) (op : Op E) :
    (applyOp c s op).path = s.path ∧
    (applyOp c s op).webReadable = s.webReadable ∧
    (applyOp c s op).webWritable = s.webWritable := by
  cases op with
  | modify f =>
    rcases hf : f (s.retained.map RetainedValue.native) with _ | v <;>
      simp [applyOp, modifyOp, hf, setArcWithRetainLock]
  | setFromBytes b =>
    rcases hb : c.dec b with _ | v <;>
      simp [applyOp, setFromBytesOp, hb, setOp, setArcWithRetainLock]
  | tryGetAsBytes =>
    rcases hr : s.retained with _ | rv
    · simp [applyOp, tryGetAsBytesOp, hr]
    · rcases hc : rv.serializedCache with _ | b <;> simp [applyOp, tryGetAsBytesOp, hr, hc]
  | _ => exact ⟨rfl, rfl, rfl⟩

/-- The token mint only counts up. -/
theorem applyOp_nextToken_le (c : Codec E) (s : TopicState E) (op : Op E) :
    s.nextToken ≤ (applyOp c s op).nextToken := by
  cases op with
  | modify f =>
    rcases hf : f (s.retained.map RetainedValue.native) with _ | v <;>
      simp [applyOp, modifyOp, hf, setArcWithRetainLock]
  | setFromBytes b =>
    rcases hb : c.dec b with _ | v <;>
      simp [applyOp, setFromBytesOp, hb, setOp, setArcWithRetainLock]
  | tryGetAsBytes =>
    rcases hr : s.retained with _ | rv
    · simp [applyOp, tryGetAsBytesOp, hr]
    · rcases hc : rv.serializedCache with _ | b <;> simp [applyOp, tryGetAsBytesOp, hr, hc]
  | subscribe q => exact Nat.le_succ _
  | subscribeAsBytes q => exact Nat.le_succ _
  | _ => exact Nat.le_refl _

/-- `TokensOK` unfolded (convenience for rewriting). -/
theorem tokensOK_def (s : TopicState E) :
    TokensOK s ↔
      ((s.senders.map Prod.fst).Nodup ∧ (∀ p ∈ s.senders, p.1 < s.nextToken) ∧
        (s.sendersSerialized.map Prod.fst).Nodup ∧
        (∀ p ∈ s.sendersSerialized, p.1 < s.nextToken)) :=
  Iff.rfl

/-- `try_get_as_bytes` touches only the serialization cache: both
registries and the token mint are untouched. -/
theorem tryGetAsBytes_registries (c : Codec E) (s : TopicState E) :
    (tryGetAsBytesOp c s).2.senders = s.senders ∧
    (tryGetAsBytesOp c s).2.sendersSerialized = s.sendersSerialized ∧
    (tryGetAsBytesOp c s).2.nextToken = s.nextToken ∧
    (tryGetAsBytesOp c s).2.evicted = s.evicted ∧
    (tryGetAsBytesOp c s).2.events = s.events := by
  rcases hr : s.retained with _ | rv
  · simp [tryGetAsBytesOp, hr]
  · rcases hc : rv.serializedCache with _ | b <;> simp [tryGetAsBytesOp, hr, hc]

/-- A publish preserves registry well-formedness. -/
theorem tokensOK_setArc (c : Codec E) (v : E) {s : TopicState E} (h : TokensOK s) :
    TokensOK (setArcWithRetainLock c v s) := by
  obtain ⟨h1, h2, h3, h4⟩ := h
  refine ⟨(fanout_kept_fst_sublist v s.senders).nodup h1, ?_,
    (fanout_kept_fst_sublist _ s.sendersSerialized).nodup h3, ?_⟩
  · intro p hp
    obtain ⟨t, q'⟩ := p
    obtain ⟨q, hq, _⟩ := fanout_mem_kept_src hp
    exact h2 (t, q) hq
  · intro p hp
    obtain ⟨t, q'⟩ := p
    obtain ⟨q, hq, _⟩ := fanout_mem_kept_src hp
    exact h4 (t, q) hq

/-- Every operation preserves registry well-formedness. -/
theorem tokensOK_applyOp (c : Codec E) {s : TopicState E} (op : Op E) (h : TokensOK s) :
    TokensOK (applyOp c s op) := by
  obtain ⟨h1, h2, h3, h4⟩ := h
  cases op with
  | set v => exact tokensOK_setArc c v ⟨h1, h2, h3, h4⟩
  | modify f =>
    rcases hf : f (s.retained.map RetainedValue.native) with _ | v
    · have he : applyOp c s (Op.modify f) = s := by simp [applyOp, modifyOp, hf]
      rw [he]
      exact ⟨h1, h2, h3, h4⟩
    · have he : applyOp c s (Op.modify f) = setArcWithRetainLock c v s := by
        simp [applyOp, modifyOp, hf]
      rw [he]
      exact tokensOK_setArc c v ⟨h1, h2, h3, h4⟩
  | subscribe q =>
    rw [tokensOK_def]
    refine ⟨?_, ?_, h3, ?_⟩
    · show (List.map Prod.fst (s.senders ++ [(s.nextToken, q)])).Nodup
      rw [List.map_append, List.nodup_append]
      refine ⟨h1, List.nodup_singleton _, ?_⟩
      intro x hx hx'
      rw [List.map_singleton, List.mem_singleton] at hx'
      obtain ⟨p, hp, rfl⟩ := List.mem_map.mp hx
      exact absurd (hx' ▸ h2 p hp) (lt_irrefl _)
    · intro p hp
      rcases List.mem_append.mp hp with hp1 | hp1
      · exact Nat.lt_succ_of_lt (h2 p hp1)
      · rw [List.mem_singleton] at hp1
        rw [hp1]
        exact Nat.lt_succ_self _
    · intro p hp
      exact Nat.lt_succ_of_lt (h4 p hp)
  | subscribeAsBytes q =>
    rw [tokensOK_def]
    refine ⟨h1, ?_, ?_, ?_⟩
    · intro p hp
      exact Nat.lt_succ_of_lt (h2 p hp)
    · show (List.map Prod.fst (s.sendersSerialized ++ [(s.nextToken, q)])).Nodup
      rw [List.map_append, List.nodup_append]
      refine ⟨h3, List.nodup_singleton _, ?_⟩
      intro x hx hx'
      rw [List.map_singleton, List.mem_singleton] at hx'
      obtain ⟨p, hp, rfl⟩ := List.mem_map.mp hx
      exact absurd (hx' ▸ h4 p hp) (lt_irrefl _)
    · intro p hp
      rcases List.mem_append.mp hp with hp1 | hp1
      · exact Nat.lt_succ_of_lt (h4 p hp1)
      · rw [List.mem_singleton] at hp1
        rw [hp1]
        exact Nat.lt_succ_self _
  | unsubscribe t =>
    exact ⟨removeTok_fst_nodup h1, fun p hp => h2 p (removeTok_subset hp), h3, h4⟩
  | unsubscribeSer t =>
    exact ⟨h1, h2, removeTok_fst_nodup h3, fun p hp => h4 p (removeTok_subset hp)⟩
  | setFromBytes b =>
    rcases hb : c.dec b with _ | v
    · have he : applyOp c s (Op.setFromBytes b) = s := by simp [applyOp, setFromBytesOp, hb]
      rw [he]
      exact ⟨h1, h2, h3, h4⟩
    · have he : applyOp c s (Op.setFromBytes b) = setArcWithRetainLock c v s := by
        simp [applyOp, setFromBytesOp, hb, setOp]
      rw [he]
      exact tokensOK_setArc c v ⟨h1, h2, h3, h4⟩
  | tryGetAsBytes =>
    obtain ⟨e1, e2, e3, _, _⟩ := tryGetAsBytes_registries c s
    rw [tokensOK_def]
    show (List.map Prod.fst (tryGetAsBytesOp c s).2.senders).Nodup ∧
      (∀ p ∈ (tryGetAsBytesOp c s).2.senders, p.1 < (tryGetAsBytesOp c s).2.nextToken) ∧
      (List.map Prod.fst (tryGetAsBytesOp c s).2.sendersSerialized).Nodup ∧
      ∀ p ∈ (tryGetAsBytesOp c s).2.sendersSerialized, p.1 < (tryGetAsBytesOp c s).2.nextToken
    rw [e1, e2, e3]
    exact ⟨h1, h2, h3, h4⟩

/-- Registry well-formedness is preserved along any run. -/
theorem tokensOK_runOps (c : Codec E) :
    ∀ (ops : List (Op E)) {s : TopicState E}, TokensOK s → TokensOK (runOps c s ops) := by
  intro ops
  induction ops with
  | nil => intro s h; exact h
  | cons op rest ih => intro s h; exact ih (tokensOK_applyOp c op h)

/-- The token mint only counts up along any run. -/
theorem runOps_nextToken_le (c : Codec E) :
    ∀ (ops : List (Op E)) (s : TopicState E), s.nextToken ≤ (runOps c s ops).nextToken := by
  intro ops
  induction ops with
  | nil => intro s; exact Nat.le_refl _
  | cons op rest ih =>
    intro s
    exact Nat.le_trans (applyOp_nextToken_le c s op) (ih (applyOp c s op))

/-- No operation ever changes the construction-time fields along a run. -/
theorem runOps_config (c : Codec E) :
    ∀ (ops : List (Op E)) (s : TopicState E),
      (runOps c s ops).path = s.path ∧
      (runOps c s ops).webReadable = s.webReadable ∧
      (runOps c s ops).webWritable = s.webWritable := by
  intro ops
  induction ops with
  | nil => intro s; exact ⟨rfl, rfl, rfl⟩
  | cons op rest ih =>
    intro s
    obtain ⟨i1, i2, i3⟩ := ih (applyOp c s op)
    obtain ⟨a1, a2, a3⟩ := applyOp_config c s op
    exact ⟨i1.trans a1, i2.trans a2, i3.trans a3⟩

/-! ## The retained slot, tracked at the specification level -/

/-- One operation moves the retained payload exactly as `publishes`
predicts. -/
theorem applyOp_retained_native (c : Codec E) (s : TopicState E) (op : Op E) :
    ((applyOp c s op).retained).map RetainedValue.native =
      (match publishes c (s.retained.map RetainedValue.native) op with
        | some v => some v
        | none => s.retained.map RetainedValue.native) := by
  cases op with
  | set v => simp [applyOp, setOp, setArcWithRetainLock, publishes]
  | modify f =>
    rcases hf : f (s.retained.map RetainedValue.native) with _ | v <;>
      simp [applyOp, modifyOp, publishes, hf, setArcWithRetainLock]
  | subscribe q => simp [applyOp, subscribeOp, publishes]
  | subscribeAsBytes q => simp [applyOp, subscribeAsBytesOp, publishes]
  | unsubscribe t => simp [applyOp, unsubscribeOp, publishes]
  | unsubscribeSer t => simp [applyOp, unsubscribeSerOp, publishes]
  | setFromBytes b =>
    rcases hb : c.dec b with _ | v <;>
      simp [applyOp, setFromBytesOp, publishes, hb, setOp, setArcWithRetainLock]
  | tryGetAsBytes =>
    rcases hr : s.retained with _ | rv
    · simp [applyOp, tryGetAsBytesOp, publishes, hr]
    · rcases hc : rv.serializedCache with _ | b <;>
        simp [applyOp, tryGetAsBytesOp, publishes, hr, hc]

/-- The retained payload after a run is exactly what the specification-level
tracker computes: the most recent publish wins, and nothing else moves it. -/
theorem runOps_retained_native (c : Codec E) :
    ∀ (ops : List (Op E)) (s : TopicState E),
      ((runOps c s ops).retained).map RetainedValue.native =
        retainedModel c (s.retained.map RetainedValue.native) ops := by
  intro ops
  induction ops with
  | nil => intro s; rfl
  | cons op rest ih =>
    intro s
    rw [runOps, retainedModel, ih (applyOp c s op), applyOp_retained_native]

/-! ## Freshness of the serialization cache -/

/-- Every operation preserves cache freshness. -/
theorem cacheOK_applyOp (c : Codec E) {s : TopicState E} (op : Op E) (h : CacheOK c s) :
    CacheOK c (applyOp c s op) := by
  have hset : ∀ v : E, CacheOK c (setArcWithRetainLock c v s) := by
    intro v rv hrv b hb
    rw [setArc_fields c v s |>.2.2.2.1] at hrv
    injection hrv with hrv
    rw [← hrv] at hb
    by_cases hse : s.sendersSerialized.isEmpty
    · simp [hse] at hb
    · simp [hse] at hb
      rw [← hrv, ← hb]
  cases op with
  | set v => exact hset v
  | modify f =>
    rcases hf : f (s.retained.map RetainedValue.native) with _ | v
    · have he : applyOp c s (Op.modify f) = s := by simp [applyOp, modifyOp, hf]
      rw [he]
      exact h
    · have he : applyOp c s (Op.modify f) = setArcWithRetainLock c v s := by
        simp [applyOp, modifyOp, hf]
      rw [he]
      exact hset v
  | subscribe q => exact h
  | subscribeAsBytes q => exact h
  | unsubscribe t => exact h
  | unsubscribeSer t => exact h
  | setFromBytes b =>
    rcases hb : c.dec b with _ | v
    · have he : applyOp c s (Op.setFromBytes b) = s := by simp [applyOp, setFromBytesOp, hb]
      rw [he]
      exact h
    · have he : applyOp c s (Op.setFromBytes b) = setArcWithRetainLock c v s := by
        simp [applyOp, setFromBytesOp, hb, setOp]
      rw [he]
      exact hset v
  | tryGetAsBytes =>
    rcases hr : s.retained with _ | rv
    · have he : applyOp c s Op.tryGetAsBytes = s := by simp [applyOp, tryGetAsBytesOp, hr]
      rw [he]
      exact h
    · rcases hc : rv.serializedCache with _ | b
      · intro rv' hrv' b' hb'
        have he : (applyOp c s Op.tryGetAsBytes).retained =
            some ⟨rv.native, some (c.enc rv.native)⟩ := by
          simp [applyOp, tryGetAsBytesOp, hr, hc]
        rw [he] at hrv'
        injection hrv' with hrv'
        rw [← hrv'] at hb'
        injection hb' with hb'
        rw [← hrv', ← hb']
      · have he : applyOp c s Op.tryGetAsBytes = s := by
          simp [applyOp, tryGetAsBytesOp, hr, hc]
        rw [he]
        exact h

/-- Cache freshness holds along any run from a fresh-cache start. -/
theorem cacheOK_runOps (c : Codec E) :
    ∀ (ops : List (Op E)) {s : TopicState E}, CacheOK c s → CacheOK c (runOps c s ops) := by
  intro ops
  induction ops with
  | nil => intro s h; exact h
  | cons op rest ih => intro s h; exact ih (cacheOK_applyOp c op h)

/-- Unfolding `publishedList` over the head operation. -/
theorem publishedList_cons (c : Codec E) (r : Option E) (op : Op E) (rest : List (Op E)) :
    publishedList c r (op :: rest) =
      (match publishes c r op with
        | some v => v :: publishedList c (some v) rest
        | none => publishedList c r rest) :=
  rfl

/-! ## Exact delivery to an unbounded, never-unsubscribed subscriber -/

/-- The master delivery lemma: an entry with an open unbounded queue whose
token is never unsubscribed stays registered through any run, and its
buffer collects exactly the published values, in order. -/
theorem delivery_aux (c : Codec E) :
    ∀ (ops : List (Op E)) (s : TopicState E) (t : Nat) (buf : List E),
      TokensOK s → t < s.nextToken →
      (t, (⟨none, buf, false⟩ : Queue E)) ∈ s.senders →
      (∀ op ∈ ops, op ≠ Op.unsubscribe t) →
      (t, (⟨none, buf ++ publishedList c (s.retained.map RetainedValue.native) ops, false⟩ :
          Queue E)) ∈ (runOps c s ops).senders := by
  intro ops
  induction ops with
  | nil =>
    intro s t buf _ _ h3 _
    simpa [publishedList, runOps] using h3
  | cons op rest ih =>
    intro s t buf hOK hlt hmem hno
    have hOK' := tokensOK_applyOp c op hOK
    have hlt' : t < (applyOp c s op).nextToken :=
      Nat.lt_of_lt_of_le hlt (applyOp_nextToken_le c s op)
    have hno' : ∀ o ∈ rest, o ≠ Op.unsubscribe t := fun o ho =>
      hno o (List.mem_cons_of_mem _ ho)
    rw [runOps, publishedList_cons]
    cases op with
    | set v =>
      have hsend : (⟨none, buf, false⟩ : Queue E).trySend v =
          (.ok, ⟨none, buf ++ [v], false⟩) := Queue.trySend_unbounded _ _ rfl rfl
      have hmem' : (t, (⟨none, buf ++ [v], false⟩ : Queue E)) ∈
          (applyOp c s (Op.set v)).senders := fanout_mem_ok hmem hsend
      have hr' : ((applyOp c s (Op.set v)).retained).map RetainedValue.native = some v := by
        simp [applyOp, setOp, setArcWithRetainLock]
      have hfinal := ih (applyOp c s (Op.set v)) t (buf ++ [v]) hOK' hlt' hmem' hno'
      rw [hr'] at hfinal
      show (t, (⟨none, buf ++ v :: publishedList c (some v) rest, false⟩ : Queue E)) ∈ _
      rw [List.append_cons]
      exact hfinal
    | modify f =>
      rcases hf : f (s.retained.map RetainedValue.native) with _ | v
      · have he : applyOp c s (Op.modify f) = s := by simp [applyOp, modifyOp, hf]
        have hpub : publishes c (s.retained.map RetainedValue.native) (Op.modify f) = none := hf
        rw [hpub]
        rw [he]
        exact ih s t buf hOK hlt hmem hno'
      · have he : applyOp c s (Op.modify f) = setArcWithRetainLock c v s := by
          simp [applyOp, modifyOp, hf]
        have hpub : publishes c (s.retained.map RetainedValue.native) (Op.modify f) = some v :=
          hf
        rw [hpub]
        have hsend : (⟨none, buf, false⟩ : Queue E).trySend v =
            (.ok, ⟨none, buf ++ [v], false⟩) := Queue.trySend_unbounded _ _ rfl rfl
        have hmem' : (t, (⟨none, buf ++ [v], false⟩ : Queue E)) ∈
            (applyOp c s (Op.modify f)).senders := by
          rw [he]
          exact fanout_mem_ok hmem hsend
        have hr' : ((applyOp c s (Op.modify f)).retained).map RetainedValue.native = some v := by
          rw [he]
          simp [setArcWithRetainLock]
        have hfinal := ih (applyOp c s (Op.modify f)) t (buf ++ [v]) hOK' hlt' hmem' hno'
        rw [hr'] at hfinal
        show (t, (⟨none, buf ++ v :: publishedList c (some v) rest, false⟩ : Queue E)) ∈ _
        rw [List.append_cons]
        exact hfinal
    | subscribe q =>
      have hmem' : (t, (⟨none, buf, false⟩ : Queue E)) ∈
          (applyOp c s (Op.subscribe q)).senders := List.mem_append_left _ hmem
      have hr' : ((applyOp c s (Op.subscribe q)).retained).map RetainedValue.native =
          s.retained.map RetainedValue.native := rfl
      have hfinal := ih (applyOp c s (Op.subscribe q)) t buf hOK' hlt' hmem' hno'
      rw [hr'] at hfinal
      exact hfinal
    | subscribeAsBytes q =>
      have hfinal := ih (applyOp c s (Op.subscribeAsBytes q)) t buf hOK' hlt' hmem hno'
      exact hfinal
    | unsubscribe t' =>
      have hne : t ≠ t' := by
        intro he
        exact hno (Op.unsubscribe t') (List.mem_cons_self _ _) (by rw [he])
      have hmem' : (t, (⟨none, buf, false⟩ : Queue E)) ∈
          (applyOp c s (Op.unsubscribe t')).senders :=
        removeTok_mem_of_ne hne hmem
      exact ih (applyOp c s (Op.unsubscribe t')) t buf hOK' hlt' hmem' hno'
    | unsubscribeSer t' =>
      exact ih (applyOp c s (Op.unsubscribeSer t')) t buf hOK' hlt' hmem hno'
    | setFromBytes b =>
      rcases hb : c.dec b with _ | v
      · have he : applyOp c s (Op.setFromBytes b) = s := by simp [applyOp, setFromBytesOp, hb]
        have hpub : publishes c (s.retained.map RetainedValue.native) (Op.setFromBytes b) =
            none := hb
        rw [hpub, he]
        exact ih s t buf hOK hlt hmem hno'
      · have he : applyOp c s (Op.setFromBytes b) = setArcWithRetainLock c v s := by
          simp [applyOp, setFromBytesOp, hb, setOp]
        have hpub : publishes c (s.retained.map RetainedValue.native) (Op.setFromBytes b) =
            some v := hb
        rw [hpub]
        have hsend : (⟨none, buf, false⟩ : Queue E).trySend v =
            (.ok, ⟨none, buf ++ [v], false⟩) := Queue.trySend_unbounded _ _ rfl rfl
        have hmem' : (t, (⟨none, buf ++ [v], false⟩ : Queue E)) ∈
            (applyOp c s (Op.setFromBytes b)).senders := by
          rw [he]
          exact fanout_mem_ok hmem hsend
        have hr' : ((applyOp c s (Op.setFromBytes b)).retained).map RetainedValue.native =
            some v := by
          rw [he]
          simp [setArcWithRetainLock]
        have hfinal := ih (applyOp c s (Op.setFromBytes b)) t (buf ++ [v]) hOK' hlt' hmem' hno'
        rw [hr'] at hfinal
        show (t, (⟨none, buf ++ v :: publishedList c (some v) rest, false⟩ : Queue E)) ∈ _
        rw [List.append_cons]
        exact hfinal
    | tryGetAsBytes =>
      have e1 := (tryGetAsBytes_registries c s).1
      have hmem' : (t, (⟨none, buf, false⟩ : Queue E)) ∈
          (applyOp c s Op.tryGetAsBytes).senders := by
        show _ ∈ (tryGetAsBytesOp c s).2.senders
        rw [e1]
        exact hmem
      have hr' : ((applyOp c s Op.tryGetAsBytes).retained).map RetainedValue.native =
          s.retained.map RetainedValue.native := by
        rcases hr : s.retained with _ | rv
        · simp [applyOp, tryGetAsBytesOp, hr]
        · rcases hc : rv.serializedCache with _ | b <;>
            simp [applyOp, tryGetAsBytesOp, hr, hc]
      have hfinal := ih (applyOp c s Op.tryGetAsBytes) t buf hOK' hlt' hmem' hno'
      rw [hr'] at hfinal
      exact hfinal

/-- Every reachable topic state has a fresh cache. -/
theorem reachable_cacheOK (c : Codec E) {s : TopicState E} (h : Reachable c s) :
    CacheOK c s := by
  obtain ⟨path, wr, ww, initial, ops, rfl⟩ := h
  apply cacheOK_runOps
  intro rv hrv b hb
  rcases initial with _ | v
  · simp [TopicState.mk0] at hrv
  · simp [TopicState.mk0, RetainedValue.new] at hrv
    rw [← hrv] at hb
    simp at hb

/-- Every reachable topic state has a well-formed registry. -/
theorem reachable_tokensOK (c : Codec E) {s : TopicState E} (h : Reachable c s) :
    TokensOK s := by
  obtain ⟨path, wr, ww, initial, ops, rfl⟩ := h
  apply tokensOK_runOps
  refine ⟨?_, ?_, ?_, ?_⟩ <;> simp [TopicState.mk0]

/-- Unsubscribing a token that is (no longer) registered changes nothing. -/
theorem unsubscribeOp_noop {t : Nat} {s : TopicState E}
    (h : t ∉ s.senders.map Prod.fst) : unsubscribeOp t s = s := by
  unfold unsubscribeOp
  rw [removeTok_eq_of_not_mem h]

/-- The bounded-subscriber overflow scenario: an entry with an open bounded
queue of capacity `C` that is fed one value more than it has room for
(without being drained) is gone from the registry at the end of the run,
and its closed queue — holding the values that did fit — is in the
eviction log. -/
theorem boundedFeed_aux (c : Codec E) (C : Nat) :
    ∀ (vs : List E) (s : TopicState E) (t : Nat) (buf : List E),
      TokensOK s →
      (t, (⟨some C, buf, false⟩ : Queue E)) ∈ s.senders →
      buf.length + vs.length = C + 1 → buf.length ≤ C →
      t ∉ (runOps c s (vs.map Op.set)).senders.map Prod.fst ∧
      (t, (⟨some C, buf ++ vs.dropLast, true⟩ : Queue E)) ∈
        (runOps c s (vs.map Op.set)).evicted := by
  intro vs
  induction vs with
  | nil =>
    intro s t buf _ _ hlen hle
    simp at hlen
    omega
  | cons v rest ih =>
    intro s t buf hOK hmem hlen hle
    cases rest with
    | nil =>
      have hbuf : buf.length = C := by
        simp at hlen
        omega
      have hsend : (⟨some C, buf, false⟩ : Queue E).trySend v =
          (.full, ⟨some C, buf, false⟩) :=
        Queue.trySend_bounded_full _ _ rfl rfl (Nat.le_of_eq hbuf.symm)
      constructor
      · show t ∉ ((fanout v s.senders).1.map Prod.fst)
        exact fanout_not_mem_kept hOK.1 hmem (by rw [hsend]; simp)
      · show (t, _) ∈ s.evicted ++ (fanout v s.senders).2
        apply List.mem_append_right
        have := fanout_mem_ev_full hmem hsend
        simpa [Queue.close] using this
    | cons x xs =>
      have hroom : buf.length < C := by
        simp at hlen
        omega
      have hsend : (⟨some C, buf, false⟩ : Queue E).trySend v =
          (.ok, ⟨some C, buf ++ [v], false⟩) :=
        Queue.trySend_bounded_room _ _ rfl rfl hroom
      have hmem' : (t, (⟨some C, buf ++ [v], false⟩ : Queue E)) ∈
          (applyOp c s (Op.set v)).senders := fanout_mem_ok hmem hsend
      have hOK' := tokensOK_applyOp c (Op.set v) hOK
      have hlen' : (buf ++ [v]).length + (x :: xs).length = C + 1 := by
        simp at hlen ⊢
        omega
      have hle' : (buf ++ [v]).length ≤ C := by
        simp
        omega
      have hfinal := ih (applyOp c s (Op.set v)) t (buf ++ [v]) hOK' hmem' hlen' hle'
      rw [List.dropLast_cons₂, List.append_cons]
      exact hfinal

/-- A `Full` outcome of `try_send` leaves the queue untouched. -/
theorem Queue.trySend_full_inv (q : Queue α) (a : α) (h : (q.trySend a).1 = .full) :
    q.trySend a = (.full, q) := by
  by_cases hc : q.closed
  · simp [Queue.trySend, hc] at h
  · rcases hcap : q.cap with _ | cp
    · simp [Queue.trySend, hc, hcap] at h
    · by_cases hlen : cp ≤ q.buf.length
      · simp [Queue.trySend, hc, hcap, hlen]
      · simp [Queue.trySend, hc, hcap, hlen] at h

/-- A `Closed` outcome of `try_send` leaves the queue untouched. -/
theorem Queue.trySend_closed_inv (q : Queue α) (a : α) (h : (q.trySend a).1 = .closedErr) :
    q.trySend a = (.closedErr, q) := by
  by_cases hc : q.closed
  · simp [Queue.trySend, hc]
  · rcases hcap : q.cap with _ | cp
    · simp [Queue.trySend, hc, hcap] at h
    · by_cases hlen : cp ≤ q.buf.length
      · simp [Queue.trySend, hc, hcap, hlen] at h
      · simp [Queue.trySend, hc, hcap, hlen] at h

/-- In a registry with distinct tokens, `find?` by token returns exactly
the registered entry. -/
theorem find?_eq_of_mem_nodup :
    ∀ {l : List (Nat × β)}, (l.map Prod.fst).Nodup →
      ∀ {t : Nat} {q : β}, (t, q) ∈ l → l.find? (fun p => p.1 = t) = some (t, q) := by
  intro l
  induction l with
  | nil => intro _ t q hm; cases hm
  | cons hd tl ih =>
    intro hnd t q hm
    obtain ⟨t₀, q₀⟩ := hd
    rw [List.map_cons, List.nodup_cons] at hnd
    by_cases ht : t₀ = t
    · subst ht
      have : (t₀, q) = (t₀, q₀) := by
        rcases List.mem_cons.mp hm with h1 | h1
        · exact h1
        · exact absurd (List.mem_map.mpr ⟨(t₀, q), h1, rfl⟩) hnd.1
      injection this with _ h2
      rw [List.find?_cons]
      simp [h2]
    · have h1 : (t, q) ∈ tl := by
        rcases List.mem_cons.mp hm with h1 | h1
        · injection h1 with ha _
          exact absurd ha.symm ht
        · exact h1
      rw [List.find?_cons]
      have hp : (decide ((t₀, q₀).1 = t)) = false := by simp [ht]
      rw [hp]
      exact ih hnd.2 h1

/-! ## The claims -/

/-- C4: when the `modify` transform applied to the current value (`none` if
never set) returns `some v'`, exactly one fan-out event carrying `v'` is
produced, the retained payload becomes `v'`, and every subscriber whose
enqueue succeeds receives exactly `v'`; when the transform returns `none`,
the whole topic state — retained value, both registries, and the event
log — is left completely untouched. -/
theorem modify_semantics (c : Codec E) (f : Option E → Option E) (s : TopicState E) :
    (∀ v', f (s.retained.map RetainedValue.native) = some v' →
      ((modifyOp c f s).events = s.events ++ [v'] ∧
       ((modifyOp c f s).retained).map RetainedValue.native = some v' ∧
       (∀ (t : Nat) (q q' : Queue E), (t, q) ∈ s.senders → q.trySend v' = (.ok, q') →
          (t, q') ∈ (modifyOp c f s).senders))) ∧
    (f (s.retained.map RetainedValue.native) = none → modifyOp c f s = s) := by
  constructor
  · intro v' hf
    have he : modifyOp c f s = setArcWithRetainLock c v' s := by simp [modifyOp, hf]
    rw [he]
    exact ⟨rfl, by simp [setArcWithRetainLock],
      fun t q q' hm hs => fanout_mem_ok hm hs⟩
  · intro hf
    simp [modifyOp, hf]

/-- Witness for C4 on a concrete topic with one subscriber: a transform
that reads `none` and yields `true` produces one event, sets the retained
value, and enqueues `true` to the subscriber; a transform yielding `none`
leaves the state identical. -/
theorem modify_semantics_witness :
    (modifyOp boolCodec (fun _ => some true) demoTopicSub).events =
        demoTopicSub.events ++ [true] ∧
    ((modifyOp boolCodec (fun _ => some true) demoTopicSub).retained).map
        RetainedValue.native = some true ∧
    (0, (⟨none, [true], false⟩ : Queue Bool)) ∈
        (modifyOp boolCodec (fun _ => some true) demoTopicSub).senders ∧
    modifyOp boolCodec (fun _ => none) demoTopicSub = demoTopicSub := by
  obtain ⟨h1, h2, h3⟩ :=
    (modify_semantics boolCodec (fun _ => some true) demoTopicSub).1 true rfl
  exact ⟨h1, h2,
    h3 0 (Queue.unboundedNew Bool) _ (List.mem_singleton.mpr rfl) rfl,
    (modify_semantics boolCodec (fun _ => none) demoTopicSub).2 rfl⟩

/-- C5: `set_from_bytes` on bytes that do not decode returns the decode
error — an error value distinct from success — and leaves the entire topic
state (retained value, cache, both registries, event log) unchanged; on
bytes that do decode to `v` it returns success and performs a normal `set`
of `v`. -/
theorem setFromBytes_decode_atomicity (c : Codec E) (b : List Nat) (s : TopicState E) :
    (c.dec b = none →
      setFromBytesOp c b s = (Except.error TopicError.decodeError, s)) ∧
    (∀ v, c.dec b = some v → setFromBytesOp c b s = (Except.ok (), setOp c v s)) := by
  constructor
  · intro h
    simp [setFromBytesOp, h]
  · intro v h
    simp [setFromBytesOp, h]

/-- Witness for C5: on the concrete `Bool` topic, the byte string `[0]`
does not decode and the call errors out leaving the state untouched, while
the JSON bytes of `true` decode and perform the `set`. -/
theorem setFromBytes_decode_atomicity_witness :
    setFromBytesOp boolCodec [0] demoTopic = (Except.error TopicError.decodeError, demoTopic) ∧
    setFromBytesOp boolCodec [116, 114, 117, 101] demoTopic =
      (Except.ok (), setOp boolCodec true demoTopic) :=
  ⟨(setFromBytes_decode_atomicity boolCodec [0] demoTopic).1 (by decide),
   (setFromBytes_decode_atomicity boolCodec [116, 114, 117, 101] demoTopic).2 true (by decide)⟩

/-- C6: for every payload value `v` whose encoding decodes back to `v`,
`set_from_bytes (enc v)` succeeds and a following `try_get_as_bytes`
returns exactly `enc v`, bit for bit. -/
theorem byte_roundtrip (c : Codec E) (v : E) (s : TopicState E)
    (h : c.dec (c.enc v) = some v) :
    (setFromBytesOp c (c.enc v) s).1 = Except.ok () ∧
    (tryGetAsBytesOp c (setFromBytesOp c (c.enc v) s).2).1 = some (c.enc v) := by
  have hstate : setFromBytesOp c (c.enc v) s = (Except.ok (), setOp c v s) := by
    simp [setFromBytesOp, h]
  rw [hstate]
  refine ⟨rfl, ?_⟩
  show (tryGetAsBytesOp c (setOp c v s)).1 = some (c.enc v)
  by_cases hse : s.sendersSerialized.isEmpty
  · simp [tryGetAsBytesOp, setOp, setArcWithRetainLock, hse]
  · simp [tryGetAsBytesOp, setOp, setArcWithRetainLock, hse]

/-- Witness for C6 with the concrete `Bool` codec and `v = true`. -/
theorem byte_roundtrip_witness :
    (setFromBytesOp boolCodec (boolCodec.enc true) demoTopic).1 = Except.ok () ∧
    (tryGetAsBytesOp boolCodec
        (setFromBytesOp boolCodec (boolCodec.enc true) demoTopic).2).1 =
      some (boolCodec.enc true) :=
  byte_roundtrip boolCodec true demoTopic (by decide)

/-- C1: the retained slot is linearizable.  After any sequence of completed
operations, if the specification-level tracker says the most recent publish
was `v`, then `get` returns `v` immediately — never an older value.  And a
`get` that finds the topic empty registers an unbounded subscription under
the retained lock; after any further run that publishes at least once (and
never unsubscribes that fresh token), the receive yields exactly the first
value published after registration, with the remaining published values
still queued in order. -/
theorem retained_linearizable (c : Codec E) (s : TopicState E) (ops : List (Op E)) :
    (∀ v, retainedModel c (s.retained.map RetainedValue.native) ops = some v →
      getImmediateOrSubscribe (runOps c s ops) = Sum.inl v) ∧
    (s.retained = none → TokensOK s →
      ∀ (ops' : List (Op E)) (v : E) (rest' : List E),
        publishedList c none ops' = v :: rest' →
        (∀ op ∈ ops', op ≠ Op.unsubscribe s.nextToken) →
        recvOn s.nextToken (runOps c (subscribeUnboundedOp s).2 ops') =
          some (RecvOutcome.value v ⟨none, rest', false⟩)) := by
  constructor
  · intro v hv
    have h := runOps_retained_native c ops s
    rw [hv] at h
    rcases hr : (runOps c s ops).retained with _ | rv
    · rw [hr] at h
      simp at h
    · rw [hr] at h
      simp at h
      simp [getImmediateOrSubscribe, hr, h]
  · intro hnone hOK ops' v rest' hpub hno
    have hOK₁ : TokensOK (subscribeUnboundedOp s).2 :=
      tokensOK_applyOp c (Op.subscribe (Queue.unboundedNew E)) hOK
    have hmem : (s.nextToken, (⟨none, [], false⟩ : Queue E)) ∈
        (subscribeUnboundedOp s).2.senders :=
      List.mem_append_right _ (List.mem_singleton.mpr rfl)
    have hlt : s.nextToken < (subscribeUnboundedOp s).2.nextToken := Nat.lt_succ_self _
    have hret : (subscribeUnboundedOp s).2.retained.map RetainedValue.native = none := by
      show s.retained.map RetainedValue.native = none
      rw [hnone]
      rfl
    have hdel := delivery_aux c ops' (subscribeUnboundedOp s).2 s.nextToken [] hOK₁ hlt hmem hno
    rw [hret, hpub] at hdel
    have hOK₂ : TokensOK (runOps c (subscribeUnboundedOp s).2 ops') :=
      tokensOK_runOps c ops' hOK₁
    have hfind := find?_eq_of_mem_nodup hOK₂.1 hdel
    rw [recvOn, hfind]
    simp [Queue.recvQ]

/-- Witness for C1: on the concrete `Bool` topic, after publishing `true`
then `false`, an immediate `get` returns `false`; and a `get` that found
the topic empty and subscribed receives exactly the first value published
afterwards (`true`), with `false` still queued. -/
theorem retained_linearizable_witness :
    getImmediateOrSubscribe (runOps boolCodec demoTopic [Op.set true, Op.set false]) =
      Sum.inl false ∧
    recvOn demoTopic.nextToken
        (runOps boolCodec (subscribeUnboundedOp demoTopic).2 [Op.set true, Op.set false]) =
      some (RecvOutcome.value true ⟨none, [false], false⟩) := by
  constructor
  · exact (retained_linearizable boolCodec demoTopic [Op.set true, Op.set false]).1 false
      (by decide)
  · refine (retained_linearizable boolCodec demoTopic [Op.set true, Op.set false]).2 rfl
      ?_ [Op.set true, Op.set false] true [false] (by decide) ?_
    · refine ⟨?_, ?_, ?_, ?_⟩ <;> simp [demoTopic, TopicState.mk0]
    · intro op hop
      fin_cases hop <;> simp

/-- C2: a native subscriber registered before a run of operations, never
evicted (its queue is unbounded, so fullness eviction cannot apply) and
never unsubscribed, holds on its queue exactly the values published during
the run, in publish order — and nothing else: in particular not the value
that was retained when it registered. -/
theorem exact_delivery (c : Codec E) (s : TopicState E) (ops : List (Op E))
    (hOK : TokensOK s)
    (hno : ∀ op ∈ ops, op ≠ Op.unsubscribe (subscribeUnboundedOp s).1) :
    (((subscribeUnboundedOp s).1,
        (⟨none, publishedList c (s.retained.map RetainedValue.native) ops, false⟩ : Queue E)) ∈
      (runOps c (subscribeUnboundedOp s).2 ops).senders) ∧
    (∀ q' : Queue E,
      ((subscribeUnboundedOp s).1, q') ∈ (runOps c (subscribeUnboundedOp s).2 ops).senders →
      q' = ⟨none, publishedList c (s.retained.map RetainedValue.native) ops, false⟩) := by
  have hOK₁ : TokensOK (subscribeUnboundedOp s).2 :=
    tokensOK_applyOp c (Op.subscribe (Queue.unboundedNew E)) hOK
  have hmem : (s.nextToken, (⟨none, [], false⟩ : Queue E)) ∈
      (subscribeUnboundedOp s).2.senders :=
    List.mem_append_right _ (List.mem_singleton.mpr rfl)
  have hlt : s.nextToken < (subscribeUnboundedOp s).2.nextToken := Nat.lt_succ_self _
  have hret : (subscribeUnboundedOp s).2.retained.map RetainedValue.native =
      s.retained.map RetainedValue.native := rfl
  have hdel := delivery_aux c ops (subscribeUnboundedOp s).2 s.nextToken [] hOK₁ hlt hmem hno
  rw [hret] at hdel
  simp only [List.nil_append] at hdel
  have hOK₂ : TokensOK (runOps c (subscribeUnboundedOp s).2 ops) := tokensOK_runOps c ops hOK₁
  exact ⟨hdel, fun q' hq' => (mem_assoc_unique hOK₂.1 hq' hdel)⟩

/-- Witness for C2: a subscriber to the concrete topic — which already
retains `true` at registration — receives exactly the two subsequently
published values `false`, `true`, in order, and its registry entry is
unique. -/
theorem exact_delivery_witness :
    ((subscribeUnboundedOp (setOp boolCodec true demoTopic)).1,
      (⟨none, [false, true], false⟩ : Queue Bool)) ∈
      (runOps boolCodec (subscribeUnboundedOp (setOp boolCodec true demoTopic)).2
        [Op.set false, Op.set true]).senders := by
  have h := exact_delivery boolCodec (setOp boolCodec true demoTopic)
    [Op.set false, Op.set true]
    (by refine ⟨?_, ?_, ?_, ?_⟩ <;> simp [demoTopic, TopicState.mk0, setOp,
      setArcWithRetainLock, fanout])
    (by intro op hop; fin_cases hop <;> simp)
  exact h.1

/-- C8: no process-fatal error originates from the core.  The receive step
inside a blocking `get` can never hit the stream-end branch (the source's
`unwrap`): the temporary subscription's queue is unbounded, so it is never
evicted or closed, and a receive on it either yields a value or keeps
waiting.  And the serialization step inside `try_get_as_bytes` always
yields bytes whenever a value is retained (the encoder is total by the
`Serialize` bound on the payload type). -/
theorem no_fatal_core (c : Codec E) (s : TopicState E) (hOK : TokensOK s)
    (_hnone : s.retained = none) :
    (∀ ops : List (Op E), (∀ op ∈ ops, op ≠ Op.unsubscribe s.nextToken) →
      ∃ out, recvOn s.nextToken (runOps c (subscribeUnboundedOp s).2 ops) = some out ∧
        out ≠ RecvOutcome.streamEnd) ∧
    (∀ s' : TopicState E, s'.retained ≠ none → (tryGetAsBytesOp c s').1.isSome = true) := by
  constructor
  · intro ops hno
    have hOK₁ : TokensOK (subscribeUnboundedOp s).2 :=
      tokensOK_applyOp c (Op.subscribe (Queue.unboundedNew E)) hOK
    have hmem : (s.nextToken, (⟨none, [], false⟩ : Queue E)) ∈
        (subscribeUnboundedOp s).2.senders :=
      List.mem_append_right _ (List.mem_singleton.mpr rfl)
    have hlt : s.nextToken < (subscribeUnboundedOp s).2.nextToken := Nat.lt_succ_self _
    have hdel := delivery_aux c ops (subscribeUnboundedOp s).2 s.nextToken [] hOK₁ hlt hmem hno
    have hOK₂ : TokensOK (runOps c (subscribeUnboundedOp s).2 ops) :=
      tokensOK_runOps c ops hOK₁
    have hfind := find?_eq_of_mem_nodup hOK₂.1 hdel
    rw [recvOn, hfind]
    rcases hl : [] ++ publishedList c
        ((subscribeUnboundedOp s).2.retained.map RetainedValue.native) ops with _ | ⟨v, rest⟩
    · exact ⟨RecvOutcome.wouldBlock, by simp [Queue.recvQ, hl], by simp⟩
    · exact ⟨RecvOutcome.value v ⟨none, rest, false⟩, by simp [Queue.recvQ, hl], by simp⟩
  · intro s' hr
    rcases hret : s'.retained with _ | rv
    · exact absurd hret hr
    · rcases hc : rv.serializedCache with _ | b <;> simp [tryGetAsBytesOp, hret, hc]

/-- Witness for C8: on the concrete empty `Bool` topic, receiving after no
publish suspends (it does not hit the fatal branch), and
`try_get_as_bytes` yields bytes once a value is set. -/
theorem no_fatal_core_witness :
    (∃ out, recvOn demoTopic.nextToken
        (runOps boolCodec (subscribeUnboundedOp demoTopic).2 []) = some out ∧
      out ≠ RecvOutcome.streamEnd) ∧
    (tryGetAsBytesOp boolCodec (setOp boolCodec true demoTopic)).1.isSome = true := by
  have h := no_fatal_core boolCodec demoTopic
    (by refine ⟨?_, ?_, ?_, ?_⟩ <;> simp [demoTopic, TopicState.mk0]) rfl
  exact ⟨h.1 [] (by intro op hop; cases hop), h.2 _ (by decide)⟩

/-- C3: on every publish, each subscriber queue's non-blocking enqueue has
exactly three outcomes: success keeps the (updated) entry registered; a
full queue is closed and the entry dropped to the eviction log; an
already-closed queue is dropped silently.  A bounded subscriber of
capacity `C ≥ 1` fed `C + 1` values without draining is evicted on the
`(C+1)`-th publish with its queue observably closed (holding the `C`
values that fit), and a subsequent `unsubscribe` on its handle is a
no-op. -/
theorem backpressure_eviction (c : Codec E) (s : TopicState E) (hOK : TokensOK s) :
    (∀ (t : Nat) (q : Queue E) (v : E), (t, q) ∈ s.senders →
      ((∀ q', q.trySend v = (.ok, q') → (t, q') ∈ (setOp c v s).senders) ∧
       ((q.trySend v).1 = .full →
          t ∉ (setOp c v s).senders.map Prod.fst ∧
          (t, q.close) ∈ (setOp c v s).evicted ∧ (q.close).closed = true) ∧
       ((q.trySend v).1 = .closedErr →
          t ∉ (setOp c v s).senders.map Prod.fst ∧ (t, q) ∈ (setOp c v s).evicted))) ∧
    (∀ (C : Nat) (vs : List E), 1 ≤ C → vs.length = C + 1 →
      (s.nextToken ∉
        (runOps c (subscribeOp (Queue.boundedNew E C) s).2 (vs.map Op.set)).senders.map
          Prod.fst) ∧
      ((s.nextToken, (⟨some C, vs.dropLast, true⟩ : Queue E)) ∈
        (runOps c (subscribeOp (Queue.boundedNew E C) s).2 (vs.map Op.set)).evicted) ∧
      unsubscribeOp s.nextToken
          (runOps c (subscribeOp (Queue.boundedNew E C) s).2 (vs.map Op.set)) =
        runOps c (subscribeOp (Queue.boundedNew E C) s).2 (vs.map Op.set)) := by
  constructor
  · intro t q v hm
    refine ⟨?_, ?_, ?_⟩
    · intro q' hs
      exact fanout_mem_ok hm hs
    · intro hfull
      have hpair := Queue.trySend_full_inv q v hfull
      refine ⟨?_, ?_, rfl⟩
      · exact fanout_not_mem_kept hOK.1 hm
          (by rw [hpair]; exact fun h => TrySendResult.noConfusion h)
      · show (t, q.close) ∈ s.evicted ++ (fanout v s.senders).2
        exact List.mem_append_right _ (fanout_mem_ev_full hm hpair)
    · intro hclosed
      have hpair := Queue.trySend_closed_inv q v hclosed
      refine ⟨?_, ?_⟩
      · exact fanout_not_mem_kept hOK.1 hm
          (by rw [hpair]; exact fun h => TrySendResult.noConfusion h)
      · show (t, q) ∈ s.evicted ++ (fanout v s.senders).2
        exact List.mem_append_right _ (fanout_mem_ev_closed hm hpair)
  · intro C vs hC hlen
    have hOK₁ : TokensOK (subscribeOp (Queue.boundedNew E C) s).2 :=
      tokensOK_applyOp c (Op.subscribe (Queue.boundedNew E C)) hOK
    have hmem : (s.nextToken, (⟨some C, [], false⟩ : Queue E)) ∈
        (subscribeOp (Queue.boundedNew E C) s).2.senders :=
      List.mem_append_right _ (List.mem_singleton.mpr rfl)
    have hfeed := boundedFeed_aux c C vs (subscribeOp (Queue.boundedNew E C) s).2
      s.nextToken [] hOK₁ hmem (by simpa using hlen) (Nat.zero_le _)
    simp only [List.nil_append] at hfeed
    exact ⟨hfeed.1, hfeed.2, unsubscribeOp_noop hfeed.1⟩

/-- Witness for C3: on the concrete topic with three subscribers (open
unbounded, bounded-and-full, closed), one publish keeps the first entry
with the value enqueued, evicts the second with its queue closed, and
silently drops the third; and a capacity-1 subscriber fed two values is
evicted on the second publish, its closed queue holding the first value,
after which unsubscribing is a no-op. -/
theorem backpressure_eviction_witness :
    ((0, (⟨none, [false], false⟩ : Queue Bool)) ∈
        (setOp boolCodec false demoTopicThree).senders) ∧
    (1 ∉ (setOp boolCodec false demoTopicThree).senders.map Prod.fst) ∧
    ((1, (⟨some 1, [true], true⟩ : Queue Bool)) ∈
        (setOp boolCodec false demoTopicThree).evicted) ∧
    (2 ∉ (setOp boolCodec false demoTopicThree).senders.map Prod.fst) ∧
    ((2, (⟨none, [], true⟩ : Queue Bool)) ∈ (setOp boolCodec false demoTopicThree).evicted) ∧
    (demoTopic.nextToken ∉
      (runOps boolCodec (subscribeOp (Queue.boundedNew Bool 1) demoTopic).2
        [Op.set true, Op.set false]).senders.map Prod.fst) ∧
    ((demoTopic.nextToken, (⟨some 1, [true], true⟩ : Queue Bool)) ∈
      (runOps boolCodec (subscribeOp (Queue.boundedNew Bool 1) demoTopic).2
        [Op.set true, Op.set false]).evicted) ∧
    (unsubscribeOp demoTopic.nextToken
        (runOps boolCodec (subscribeOp (Queue.boundedNew Bool 1) demoTopic).2
          [Op.set true, Op.set false]) =
      runOps boolCodec (subscribeOp (Queue.boundedNew Bool 1) demoTopic).2
        [Op.set true, Op.set false]) := by
  have hOK3 : TokensOK demoTopicThree := by
    refine ⟨?_, ?_, ?_, ?_⟩ <;> simp [demoTopicThree, demoTopic, TopicState.mk0]
  have h := backpressure_eviction boolCodec demoTopicThree hOK3
  have h0 := (h.1 0 ⟨none, [], false⟩ false (by simp [demoTopicThree])).1
    ⟨none, [false], false⟩ (by decide)
  have h1 := (h.1 1 ⟨some 1, [true], false⟩ false (by simp [demoTopicThree])).2.1 (by decide)
  have h2 := (h.1 2 ⟨none, [], true⟩ false (by simp [demoTopicThree])).2.2 (by decide)
  have hOKd : TokensOK demoTopic := by
    refine ⟨?_, ?_, ?_, ?_⟩ <;> simp [demoTopic, TopicState.mk0]
  have hb := (backpressure_eviction boolCodec demoTopic hOKd).2 1 [true, false]
    (by decide) (by decide)
  exact ⟨h0, h1.1, h1.2.1, h2.1, h2.2, hb.1, hb.2.1, hb.2.2⟩

/-- C7 counterexample: a publish does not always leave an *empty*
serialization cache behind.  On the concrete topic with one serialized
subscriber, publishing `true` produces a retained object whose cache is
already populated (with the new value's encoding) — not the fresh
empty-cache object. -/
theorem publish_cache_counterexample :
    (setOp boolCodec true demoTopicSerSub).retained ≠ some (RetainedValue.new true) ∧
    (setOp boolCodec true demoTopicSerSub).retained =
      some ⟨true, some [116, 114, 117, 101]⟩ := by
  constructor <;> decide

/-- C7 (amended): in every reachable state the serialization cache, when
present, is exactly the encoding of the current retained value — never
stale.  Every publish replaces the retained object wholesale with the new
value and a serialization cache that is empty unless at least one
serialized subscriber is registered, in which case the same publish
populates it with exactly the new value's encoding; and every operation
preserves the freshness invariant. -/
theorem cache_freshness_invariant (c : Codec E) (s : TopicState E) (h : Reachable c s) :
    CacheOK c s ∧
    (∀ op : Op E, CacheOK c (applyOp c s op)) ∧
    (∀ v, (setOp c v s).retained =
      some ⟨v, if s.sendersSerialized.isEmpty then none else some (c.enc v)⟩) ∧
    (∀ v, s.sendersSerialized = [] →
      (setOp c v s).retained = some (RetainedValue.new v)) := by
  have hc := reachable_cacheOK c h
  refine ⟨hc, fun op => cacheOK_applyOp c op hc, fun v => rfl, fun v hse => ?_⟩
  simp [setOp, setArcWithRetainLock, hse, RetainedValue.new]

/-- Witness for C7 (amended): the concrete fresh topic is reachable, its
cache is fresh, and a publish on it (no serialized subscribers) leaves the
empty cache. -/
theorem cache_freshness_invariant_witness :
    CacheOK boolCodec demoTopic ∧
    (setOp boolCodec true demoTopic).retained = some (RetainedValue.new true) := by
  have h := cache_freshness_invariant boolCodec demoTopic
    ⟨"v1/test", true, true, none, [], rfl⟩
  exact ⟨h.1, h.2.2.2 true rfl⟩

/-- C9 counterexample: the core stores the web-visibility flags but does
not itself enforce them.  On a concrete topic with `web_writable = false`
and `web_readable = false`, a byte-oriented write through the type-erased
interface succeeds and changes the retained state, and a byte-oriented
read returns the value's bytes. -/
theorem web_flags_counterexample :
    webWritableOp demoTopicNoWeb = false ∧
    (setFromBytesOp boolCodec [116, 114, 117, 101] demoTopicNoWeb).1 = Except.ok () ∧
    (setFromBytesOp boolCodec [116, 114, 117, 101] demoTopicNoWeb).2.retained ≠
      demoTopicNoWeb.retained ∧
    webReadableOp demoTopicNoWeb = false ∧
    (tryGetAsBytesOp boolCodec
        (setFromBytesOp boolCodec [116, 114, 117, 101] demoTopicNoWeb).2).1 =
      some [116, 114, 117, 101] := by
  refine ⟨rfl, rfl, by decide, rfl, by decide⟩

/-- C9 (amended): the web-visibility flags are stored at construction,
immutable — no sequence of operations changes them or the path — and
faithfully returned by the accessors; but the type-erased byte interface
itself does not consult them: `set_from_bytes` and `try_get_as_bytes`
behave identically whatever the flags' values, so enforcement is left to
the external callers of the interface. -/
theorem web_flags_stored_not_enforced (c : Codec E) (s : TopicState E) :
    (∀ ops : List (Op E),
      webReadableOp (runOps c s ops) = s.webReadable ∧
      webWritableOp (runOps c s ops) = s.webWritable ∧
      pathOp (runOps c s ops) = s.path) ∧
    (∀ (b : List Nat) (w₁ w₂ : Bool),
      (setFromBytesOp c b { s with webWritable := w₁ }).1 =
        (setFromBytesOp c b { s with webWritable := w₂ }).1 ∧
      (setFromBytesOp c b { s with webWritable := w₁ }).2.retained =
        (setFromBytesOp c b { s with webWritable := w₂ }).2.retained) ∧
    (∀ r₁ r₂ : Bool,
      (tryGetAsBytesOp c { s with webReadable := r₁ }).1 =
        (tryGetAsBytesOp c { s with webReadable := r₂ }).1) := by
  refine ⟨?_, ?_, ?_⟩
  · intro ops
    obtain ⟨h1, h2, h3⟩ := runOps_config c ops s
    exact ⟨h2, h3, h1⟩
  · intro b w₁ w₂
    rcases hb : c.dec b with _ | v
    · simp [setFromBytesOp, hb]
    · simp [setFromBytesOp, hb, setOp, setArcWithRetainLock]
  · intro r₁ r₂
    rcases hr : s.retained with _ | rv
    · simp [tryGetAsBytesOp, hr]
    · rcases hc : rv.serializedCache with _ | bs <;> simp [tryGetAsBytesOp, hr, hc]

/-- C10: subscription entries are independent and token-addressed.  Every
`subscribe` appends a new entry under a freshly minted token (absent from
the registry); subscribing the same sender twice yields two entries under
distinct tokens, each of which is enqueued to once per publish; and
`unsubscribe` through a handle removes at most the single entry bearing
that handle's token — the surviving registry is a permutation of the
original with (only) that entry erased. -/
theorem subscription_token_independence (c : Codec E) (s : TopicState E) (hOK : TokensOK s) :
    (∀ q : Queue E,
      (subscribeOp q s).1 = s.nextToken ∧
      s.nextToken ∉ s.senders.map Prod.fst ∧
      (subscribeOp q s).2.senders = s.senders ++ [(s.nextToken, q)]) ∧
    (∀ q : Queue E,
      (subscribeOp q (subscribeOp q s).2).1 ≠ (subscribeOp q s).1 ∧
      (subscribeOp q (subscribeOp q s).2).2.senders =
        s.senders ++ [(s.nextToken, q), (s.nextToken + 1, q)] ∧
      (∀ (v : E) (q' : Queue E), q.trySend v = (.ok, q') →
        (s.nextToken, q') ∈
          (setOp c v (subscribeOp q (subscribeOp q s).2).2).senders ∧
        (s.nextToken + 1, q') ∈
          (setOp c v (subscribeOp q (subscribeOp q s).2).2).senders)) ∧
    (∀ t : Nat,
      (unsubscribeOp t s).senders.Perm (s.senders.eraseP (fun p => p.1 = t))) := by
  refine ⟨?_, ?_, ?_⟩
  · intro q
    refine ⟨rfl, ?_, rfl⟩
    intro hmem
    obtain ⟨p, hp, he⟩ := List.mem_map.mp hmem
    exact absurd (he ▸ hOK.2.1 p hp) (lt_irrefl _)
  · intro q
    refine ⟨Nat.succ_ne_self _, ?_, ?_⟩
    · show (s.senders ++ [(s.nextToken, q)]) ++ [(s.nextToken + 1, q)] =
        s.senders ++ [(s.nextToken, q), (s.nextToken + 1, q)]
      rw [List.append_assoc]
      rfl
    intro v q' hsend
    have hm₁ : (s.nextToken, q) ∈ (subscribeOp q (subscribeOp q s).2).2.senders := by
      show _ ∈ (s.senders ++ [(s.nextToken, q)]) ++ [(s.nextToken + 1, q)]
      exact List.mem_append_left _ (List.mem_append_right _ (List.mem_singleton.mpr rfl))
    have hm₂ : (s.nextToken + 1, q) ∈ (subscribeOp q (subscribeOp q s).2).2.senders :=
      List.mem_append_right _ (List.mem_singleton.mpr rfl)
    exact ⟨fanout_mem_ok hm₁ hsend, fanout_mem_ok hm₂ hsend⟩
  · intro t
    exact removeTok_perm t s.senders

/-- Witness for C10 on the concrete topic with one subscriber: a fresh
subscribe appends token 1, double-subscribing the same queue yields tokens
1 and 2 each receiving one copy of a publish, and unsubscribing token 0
removes exactly that entry. -/
theorem subscription_token_independence_witness :
    (subscribeOp (Queue.unboundedNew Bool) demoTopicSub).1 = 1 ∧
    (1 : Nat) ∉ demoTopicSub.senders.map Prod.fst ∧
    ((1 : Nat), ⟨none, [true], false⟩) ∈
      (setOp boolCodec true
        (subscribeOp (Queue.unboundedNew Bool)
          (subscribeOp (Queue.unboundedNew Bool) demoTopicSub).2).2).senders ∧
    ((2 : Nat), ⟨none, [true], false⟩) ∈
      (setOp boolCodec true
        (subscribeOp (Queue.unboundedNew Bool)
          (subscribeOp (Queue.unboundedNew Bool) demoTopicSub).2).2).senders ∧
    (unsubscribeOp 0 demoTopicSub).senders.Perm
      (demoTopicSub.senders.eraseP (fun p => p.1 = 0)) := by
  have hOK : TokensOK demoTopicSub := by
    refine ⟨?_, ?_, ?_, ?_⟩ <;> simp [demoTopicSub, demoTopic, TopicState.mk0]
  have h := subscription_token_independence boolCodec demoTopicSub hOK
  obtain ⟨h1a, h1b, _⟩ := h.1 (Queue.unboundedNew Bool)
  obtain ⟨hm1, hm2⟩ := (h.2.1 (Queue.unboundedNew Bool)).2.2 true ⟨none, [true], false⟩ rfl
  exact ⟨h1a, h1b, hm1, hm2, h.2.2 0⟩

